import Mathlib

/-!
Verification of the minio-resource Concourse resource (check / in / out).

The Go source is shallowly embedded: the pure logic of each operation becomes
a Lean function; network interaction (listing the bucket, downloading a single
object) is passed in as an explicit argument; machine timestamps are modelled
as natural numbers; the concurrent bulk download is modelled by an explicit
completion order over the object indices.
-/

namespace MinioResource

/-- Version from pkg/models (path, etag, last_modified).  The Go `time.Time`
last-modified timestamp is modelled as a natural number; `After`, `Before`
and `Equal` become `<`, `>` and `=`. -/
structure Version where
  path : String
  etag : String
  lastModified : Nat
  deriving DecidableEq

/-- ObjectInfo from pkg/minio (Path, ETag, LastModified, Size). -/
structure ObjectInfo where
  path : String
  etag : String
  lastModified : Nat
  size : Int
  deriving DecidableEq

/-- Metadata name/value pair from pkg/models. -/
structure Metadata where
  name : String
  value : String
  deriving DecidableEq

/-- Source configuration from pkg/models. -/
structure Source where
  endpoint : String
  accessKey : String
  secretKey : String
  bucket : String
  pathPrefix : String
  useSSL : Option Bool
  region : String
  skipSSLVerification : Bool
  deriving DecidableEq

/-- Conversion performed by the check main loop (cmd/check, lines 51-55):
an ObjectInfo becomes a Version with the same path, etag and timestamp. -/
def toVersion (o : ObjectInfo) : Version :=
  { path := o.path, etag := o.etag, lastModified := o.lastModified }

/-- Filter applied by the check main loop (cmd/check, lines 57-68): when a
prior version is present (non-empty path), an object is kept unless it is a
path+etag duplicate of the prior version or its timestamp is not strictly
after the prior version's timestamp.  When no prior version is present every
object is kept. -/
def keepNew (cur v : Version) : Bool :=
  if cur.path ≠ "" then
    if v.path = cur.path ∧ v.etag = cur.etag then false
    else if ¬ cur.lastModified < v.lastModified then false
    else true
  else true

/-- Spec-level statement of the newness filter: not a path+fingerprint
duplicate of the prior version, and timestamp strictly after it. -/
def passesFilter (cur v : Version) : Prop :=
  ¬ (v.path = cur.path ∧ v.etag = cur.etag) ∧ cur.lastModified < v.lastModified

instance (cur v : Version) : Decidable (passesFilter cur v) := by
  unfold passesFilter; infer_instance

/-- Comparator handed to sort.Slice by check (cmd/check, lines 74-80): strictly
earlier timestamp first; on equal timestamps, lexicographically smaller path
first. -/
def versionLess (a b : Version) : Bool :=
  if a.lastModified = b.lastModified then decide (a.path < b.path)
  else decide (a.lastModified < b.lastModified)

/-- Sortedness relation guaranteed by sort.Slice with comparator
`versionLess`: `b` is not strictly before `a`. -/
def versionLe (a b : Version) : Prop := versionLess b a = false

instance : DecidableRel versionLe := fun a b =>
  inferInstanceAs (Decidable (versionLess b a = false))

instance : IsTotal Version versionLe := by
  constructor
  have hiff : ∀ x y : Version, versionLe x y ↔
      x.lastModified < y.lastModified ∨
        (x.lastModified = y.lastModified ∧ x.path ≤ y.path) := by
    intro x y
    unfold versionLe versionLess
    rcases Nat.lt_trichotomy x.lastModified y.lastModified with h | h | h
    · simp [Nat.ne_of_gt h, Nat.not_lt.mpr (Nat.le_of_lt h), h]
    · simp [h, not_lt]
    · simp [Nat.ne_of_lt h, h, Nat.lt_asymm h, Nat.ne_of_gt h]
  intro a b
  rw [hiff, hiff]
  rcases Nat.lt_trichotomy a.lastModified b.lastModified with h | h | h
  · exact Or.inl (Or.inl h)
  · rcases le_total a.path b.path with hp | hp
    · exact Or.inl (Or.inr ⟨h, hp⟩)
    · exact Or.inr (Or.inr ⟨h.symm, hp⟩)
  · exact Or.inr (Or.inl h)

instance : IsTrans Version versionLe := by
  constructor
  have hiff : ∀ x y : Version, versionLe x y ↔
      x.lastModified < y.lastModified ∨
        (x.lastModified = y.lastModified ∧ x.path ≤ y.path) := by
    intro x y
    unfold versionLe versionLess
    rcases Nat.lt_trichotomy x.lastModified y.lastModified with h | h | h
    · simp [Nat.ne_of_gt h, Nat.not_lt.mpr (Nat.le_of_lt h), h]
    · simp [h, not_lt]
    · simp [Nat.ne_of_lt h, h, Nat.lt_asymm h, Nat.ne_of_gt h]
  intro a b c hab hbc
  rw [hiff] at hab hbc ⊢
  rcases hab with hab | ⟨hab, hpab⟩ <;> rcases hbc with hbc | ⟨hbc, hpbc⟩
  · exact Or.inl (hab.trans hbc)
  · exact Or.inl (hbc ▸ hab)
  · exact Or.inl (hab ▸ hbc)
  · exact Or.inr ⟨hab.trans hbc, le_trans hpab hpbc⟩

/-- The check operation (cmd/check, lines 49-86), as a pure function of the
store listing and the prior version: convert objects to versions, filter by
`keepNew`, sort by the sort.Slice comparator, and fall back to the prior
version when the result is empty and a prior version was supplied.  The
unstable sort.Slice is modelled by insertion sort: both produce a permutation
of the input that is pairwise `versionLe`, which is all the code relies on. -/
def checkVersions (objects : List ObjectInfo) (cur : Version) : List Version :=
  let versions := (objects.map toVersion).filter (keepNew cur)
  let sorted := List.insertionSort versionLe versions
  if sorted.length = 0 ∧ cur.path ≠ "" then [cur] else sorted

/-- DownloadResult from pkg/minio (Path, Error).  The Go `error` value is
modelled as an optional message, `none` meaning success. -/
structure DownloadResult where
  path : String
  error : Option String
  deriving DecidableEq

/-- Outcome of one transfer in DownloadAllObjects (pkg/minio, lines 261-284):
a DownloadResult for the object's path carrying its download error, where the
per-object directory creation and body streaming is abstracted into the
`outcome` oracle. -/
def downloadOutcome (outcome : ObjectInfo → Option String) (o : ObjectInfo) :
    DownloadResult :=
  { path := o.path, error := outcome o }

/-- One goroutine body of DownloadAllObjects (pkg/minio, lines 255-285):
the worker for index `idx` stores its outcome into the pre-sized results
slot `idx` (`results[idx] = result`); an out-of-range index writes nothing. -/
def writeResult (objects : List ObjectInfo) (outcome : ObjectInfo → Option String)
    (results : List (Option DownloadResult)) (idx : Nat) :
    List (Option DownloadResult) :=
  match objects[idx]? with
  | some o => results.set idx (some (downloadOutcome outcome o))
  | none => results

/-- The result aggregation of DownloadAllObjects (pkg/minio, lines 244-289):
a slot array pre-sized to the object count is filled by the workers, one slot
per original index.  The semaphore of capacity `parallel` (defaulted to 5
when non-positive, lines 244-246) only bounds how many transfers are in
flight, constraining which completion orders are realizable but never which
slot a worker writes; the completion order is therefore passed in explicitly
as the list `order` of indices in the order their writes land. -/
def downloadAllOrdered (objects : List ObjectInfo)
    (outcome : ObjectInfo → Option String) (parallel : Int) (order : List Nat) :
    List (Option DownloadResult) :=
  let _ := if parallel ≤ 0 then (5 : Int) else parallel
  order.foldl (writeResult objects outcome) (List.replicate objects.length none)

/-- Shape of the ListObjects return value (pkg/minio, lines 190-216): on a
listing error the function returns a nil object slice together with the
error; on success it returns the objects and a nil error. -/
def listObjectsPair (listing : Except String (List ObjectInfo)) :
    List ObjectInfo × Option String :=
  match listing with
  | Except.error e => ([], some e)
  | Except.ok objs => (objs, none)

/-- The post-listing loop of DownloadAllObjects (pkg/minio, lines 236-242):
`for _, object := range objects { if err != nil { return nil, err };
fmt.Println(object.Path) }`.  The body checks the captured listing error
before printing, so on a non-empty slice with an error it aborts before any
print; on an empty slice the error check never runs; otherwise it prints
every object path to standard output.  Returns the printed lines or the
propagated error. -/
def downloadAllStdout (objects : List ObjectInfo) (err : Option String) :
    Except String (List String) :=
  match objects, err with
  | [], _ => Except.ok []
  | _ :: _, some e => Except.error e
  | objs, none => Except.ok (objs.map (fun o => o.path))

/-- Item written to standard output by the in operation: a plain text line
(fmt.Println) or the encoded JSON response (json.NewEncoder(os.Stdout)). -/
inductive StdoutItem where
  | line (s : String)
  | json (version : Version) (metadata : List Metadata)
  deriving DecidableEq

/-- Result of one in invocation: the fatal error or the successful response,
together with everything written to standard output.  Standard-error output
is not modelled. -/
structure RunOutput where
  result : Except String (Version × List Metadata)
  stdout : List StdoutItem

/-- Rendering of the version timestamp used in the version_modified metadata
entry (cmd/in, line 126, Go layout "2006-01-02 15:04:05"); the exact text is
immaterial to the claims, only that it is some rendering of the timestamp. -/
def timeFormat (t : Nat) : String := toString t

/-- Metadata list built by the in operation (cmd/in, lines 90-129): download
statistics, the path prefix, and, when the requested version has a non-empty
path, the version fields. -/
def inMetadata (successCount failCount : Nat) (prefixPath : String)
    (version : Version) : List Metadata :=
  [{ name := "files_downloaded", value := toString successCount },
   { name := "files_failed", value := toString failCount },
   { name := "path_prefix", value := prefixPath }] ++
  (if version.path ≠ "" then
    [{ name := "version_path", value := version.path },
     { name := "version_etag", value := version.etag },
     { name := "version_modified", value := timeFormat version.lastModified }]
   else [])

/-- Success counter of the in operation (cmd/in, lines 77-88): number of
download results with a nil error. -/
def successCount (results : List DownloadResult) : Nat :=
  (results.filter (fun r => r.error.isNone)).length

/-- Failure counter of the in operation (cmd/in, lines 77-88): number of
download results with a non-nil error. -/
def failCount (results : List DownloadResult) : Nat :=
  (results.filter (fun r => r.error.isSome)).length

/-- Tail of the in operation (cmd/in, lines 76-140): count successes and
failures over the download results, build the metadata, fail fatally when
there was at least one failure and no success, and otherwise succeed with the
echoed request version and the metadata.  The best-effort version-marker file
write (lines 106-111) only warns on stderr and is not modelled. -/
def inFinish (results : List DownloadResult) (version : Version)
    (prefixPath : String) : Except String (Version × List Metadata) :=
  let md := inMetadata (successCount results) (failCount results) prefixPath version
  if 0 < failCount results ∧ successCount results = 0 then
    Except.error "all downloads failed"
  else Except.ok (version, md)

/-- The in operation (cmd/in, lines 64-148) as a function of the listing
result and a per-object download outcome: run DownloadAllObjects (whose
listing loop may print object paths to standard output and whose aggregated
results are, by completion-order independence, the input-order outcomes),
then count, build metadata, decide fatality and emit the JSON response to
standard output.  A fatal exit writes no JSON. -/
def inRun (listing : Except String (List ObjectInfo))
    (outcome : ObjectInfo → Option String) (version : Version)
    (prefixPath : String) : RunOutput :=
  let pair := listObjectsPair listing
  match downloadAllStdout pair.1 pair.2 with
  | Except.error e =>
    { result := Except.error ("failed to download objects: " ++ e), stdout := [] }
  | Except.ok printed =>
    let results := pair.1.map (downloadOutcome outcome)
    match inFinish results version prefixPath with
    | Except.error m =>
      { result := Except.error m, stdout := printed.map StdoutItem.line }
    | Except.ok (v, md) =>
      { result := Except.ok (v, md),
        stdout := printed.map StdoutItem.line ++ [StdoutItem.json v md] }

/-- Go strings.HasSuffix. -/
def goHasSuffix (s suffix : String) : Bool :=
  suffix.data.isSuffixOf s.data

/-- Prefix normalization in NewClient (pkg/minio, lines 168-172): a non-empty
configured path prefix that does not end in "/" gets "/" appended. -/
def normalizePathPrefix (p : String) : String :=
  if p ≠ "" ∧ ¬ goHasSuffix p "/" then p ++ "/" else p

/-- Go strings.TrimPrefix: remove the leading prefix when present, otherwise
return the string unchanged. -/
def goTrimPrefix (s pre : String) : String :=
  if pre.data.isPrefixOf s.data then { data := s.data.drop pre.data.length }
  else s

/-- Removal of trailing path separators, as in Go filepath.Base (Unix). -/
def dropTrailingSlashes (l : List Char) : List Char :=
  (l.reverse.dropWhile (fun c => c = '/')).reverse

/-- Characters after the last path separator. -/
def lastComponent (l : List Char) : List Char :=
  (l.reverse.takeWhile (fun c => ¬ c = '/')).reverse

/-- Go filepath.Base on Unix: "." for the empty path, otherwise strip
trailing slashes and keep the last path element, "/" when nothing remains. -/
def goFilepathBase (p : String) : String :=
  if p = "" then "."
  else
    let stripped := dropTrailingSlashes p.data
    if stripped = [] then "/" else { data := lastComponent stripped }

/-- Go filepath.Join on two elements (Unix): empty elements are dropped and
the remaining ones are joined with "/".  Go additionally Cleans the result;
Clean is the identity on the already-clean joined paths arising here and is
not modelled. -/
def goFilepathJoin (a b : String) : String :=
  if a = "" then b else if b = "" then a else a ++ "/" ++ b

/-- Destination path computation of one download (pkg/minio, lines 261-269):
strip the client's (normalized) path prefix from the object key, fall back to
the key's base name when stripping leaves nothing, and join onto the
destination root. -/
def destinationPath (prefixPath destDir objPath : String) : String :=
  let localPath := goTrimPrefix objPath prefixPath
  let localPath := if localPath = "" then goFilepathBase objPath else localPath
  goFilepathJoin destDir localPath

/-- Value in the loosely typed params map of the wire protocol (Go
`map[string]any`): a JSON boolean, number, string, or anything else. -/
inductive ParamValue where
  | bool (b : Bool)
  | num (n : Int)
  | str (s : String)
  | other
  deriving DecidableEq

/-- The upload_enabled decision of the out operation (cmd/out, lines
203-209): uploads are disabled unless the params map is present and its
upload_enabled entry is a boolean true (a failed type assertion leaves
uploads disabled). -/
def uploadDisabled (params : Option (List (String × ParamValue))) : Bool :=
  match params with
  | none => true
  | some ps =>
    match ps.lookup "upload_enabled" with
    | some (ParamValue.bool b) => !b
    | _ => true

/-- validateSource, identical in cmd/check, cmd/in and cmd/out: the first
empty required field produces the error, otherwise validation passes. -/
def validateSource (s : Source) : Option String :=
  if s.endpoint = "" then some "endpoint is required"
  else if s.accessKey = "" then some "access_key is required"
  else if s.secretKey = "" then some "secret_key is required"
  else if s.bucket = "" then some "bucket is required"
  else none

/-- Store interaction an out invocation may perform. -/
inductive StoreOp where
  | newClient
  | bucketExists
  | globFiles
  | putObject (path : String)
  deriving DecidableEq

/-- The out operation (cmd/out, lines 185-348) up to the upload-enabled
branch: validate the source configuration (fatal on failure, before any store
interaction), then, when uploads are disabled, emit the synthetic disabled
version (path "no-upload", etag "disabled", current time `now`) with the
single upload_status=disabled metadata entry, performing no store operation.
The upload-enabled branch (lines 237-347) is irrelevant to the claims settled
here and is passed in as the opaque `enabledBranch`; the second component of
the result records the store operations performed. -/
def outRun (src : Source) (params : Option (List (String × ParamValue)))
    (now : Nat)
    (enabledBranch : Except String (Version × List Metadata) × List StoreOp) :
    Except String (Version × List Metadata) × List StoreOp :=
  match validateSource src with
  | some e => (Except.error ("invalid source configuration: " ++ e), [])
  | none =>
    if uploadDisabled params then
      (Except.ok ({ path := "no-upload", etag := "disabled", lastModified := now },
        [{ name := "upload_status", value := "disabled" }]), [])
    else enabledBranch

/-! Theorems.  First the helper lemmas about the check embedding, then one
theorem per claim (with witnesses or counterexamples where required). -/

theorem versionLe_iff (a b : Version) :
    versionLe a b ↔
      a.lastModified < b.lastModified ∨
        (a.lastModified = b.lastModified ∧ a.path ≤ b.path) := by
  unfold versionLe versionLess
  rcases Nat.lt_trichotomy a.lastModified b.lastModified with h | h | h
  · simp [Nat.ne_of_gt h, Nat.not_lt.mpr (Nat.le_of_lt h), h]
  · simp [h, not_lt]
  · simp [Nat.ne_of_lt h, h, Nat.lt_asymm h, Nat.ne_of_gt h]

theorem keepNew_of_empty {cur : Version} (h : cur.path = "") (v : Version) :
    keepNew cur v = true := by
  unfold keepNew
  simp [h]

theorem keepNew_true_iff {cur : Version} (h : cur.path ≠ "") (v : Version) :
    keepNew cur v = true ↔ passesFilter cur v := by
  unfold keepNew passesFilter
  simp only [h, if_pos, ne_eq, not_false_iff, if_true]
  by_cases hd : v.path = cur.path ∧ v.etag = cur.etag
  · simp [hd]
  · by_cases ht : cur.lastModified < v.lastModified
    · simp [hd, ht]
    · simp [hd, ht]

theorem check_cold_run (objects : List ObjectInfo) {cur : Version}
    (h : cur.path = "") :
    checkVersions objects cur
      = List.insertionSort versionLe (objects.map toVersion) := by
  have hfilter : (objects.map toVersion).filter (keepNew cur)
      = objects.map toVersion :=
    List.filter_eq_self.mpr (fun v _ => keepNew_of_empty h v)
  simp [checkVersions, hfilter, h]

/-- C3: for every store listing and every supplied prior version (non-empty
path), check never returns an empty sequence; in particular, when no listed
object passes the newness filter, check returns exactly the one-element
sequence holding the prior version. -/
theorem check_never_empty_with_prior (objects : List ObjectInfo) (cur : Version)
    (h : cur.path ≠ "") :
    checkVersions objects cur ≠ [] ∧
      ((∀ o ∈ objects, ¬ passesFilter cur (toVersion o)) →
        checkVersions objects cur = [cur]) := by
  constructor
  · simp only [checkVersions]
    by_cases hs : (List.insertionSort versionLe
        ((objects.map toVersion).filter (keepNew cur))).length = 0
    · simp [hs, h]
    · simp only [hs, false_and, if_false]
      intro hnil
      exact hs (by rw [hnil]; rfl)
  · intro hall
    have hf : (objects.map toVersion).filter (keepNew cur) = [] := by
      rw [List.filter_eq_nil_iff]
      intro v hv
      obtain ⟨o, ho, rfl⟩ := List.mem_map.mp hv
      intro hk
      exact hall o ho ((keepNew_true_iff h (toVersion o)).mp hk)
    simp only [checkVersions, hf]
    simp [List.insertionSort, h]

/-- Witness for C3 at a concrete input: one object whose timestamp is not
strictly after the prior version's, so the fallback fires. -/
theorem check_never_empty_with_prior_witness :
    checkVersions [ObjectInfo.mk "a" "e1" 1 5] (Version.mk "z" "e0" 10) ≠ [] ∧
      checkVersions [ObjectInfo.mk "a" "e1" 1 5] (Version.mk "z" "e0" 10)
        = [Version.mk "z" "e0" 10] := by
  have h := check_never_empty_with_prior [ObjectInfo.mk "a" "e1" 1 5]
    (Version.mk "z" "e0" 10) (by decide)
  exact ⟨h.1, h.2 (by decide)⟩

/-- C4: on a cold start (no prior version) check returns every listed object
as a version, as a list sorted ascending by last-modified timestamp with ties
broken by path in ascending lexicographic order. -/
theorem check_cold_start_sorted (objects : List ObjectInfo) (cur : Version)
    (h : cur.path = "") :
    (checkVersions objects cur).Perm (objects.map toVersion) ∧
      List.Sorted
        (fun a b : Version =>
          a.lastModified < b.lastModified ∨
            (a.lastModified = b.lastModified ∧ a.path ≤ b.path))
        (checkVersions objects cur) := by
  constructor
  · rw [check_cold_run objects h]
    exact List.perm_insertionSort versionLe _
  · rw [check_cold_run objects h]
    exact (List.sorted_insertionSort versionLe _).imp
      (fun hab => (versionLe_iff _ _).mp hab)

/-- Witness for C4: the concrete two-object cold-start scenario of the spec. -/
theorem check_cold_start_sorted_witness :
    (checkVersions
        [ObjectInfo.mk "data/x.txt" "e1" 2 1, ObjectInfo.mk "data/y.txt" "e2" 1 1]
        (Version.mk "" "" 0)).Perm
      ([ObjectInfo.mk "data/x.txt" "e1" 2 1,
        ObjectInfo.mk "data/y.txt" "e2" 1 1].map toVersion) ∧
      List.Sorted
        (fun a b : Version =>
          a.lastModified < b.lastModified ∨
            (a.lastModified = b.lastModified ∧ a.path ≤ b.path))
        (checkVersions
          [ObjectInfo.mk "data/x.txt" "e1" 2 1, ObjectInfo.mk "data/y.txt" "e2" 1 1]
          (Version.mk "" "" 0)) :=
  check_cold_start_sorted _ _ rfl

/-- C5 as stated is false on the code: an object that is strictly newer in
timestamp but is a path+etag duplicate of the prior version is dropped by the
duplicate filter, the remaining candidate set is empty, and check falls back
to returning the prior version itself, which equals the prior version and is
not strictly newer than it. -/
theorem check_newer_duplicate_counterexample :
    (Version.mk "p" "e" 5).path ≠ "" ∧
      (∃ o ∈ [ObjectInfo.mk "p" "e" 10 1],
        (Version.mk "p" "e" 5).lastModified < o.lastModified) ∧
      ¬ (∀ v ∈ checkVersions [ObjectInfo.mk "p" "e" 10 1] (Version.mk "p" "e" 5),
          ¬ (v.path = (Version.mk "p" "e" 5).path ∧
              v.etag = (Version.mk "p" "e" 5).etag) ∧
            (Version.mk "p" "e" 5).lastModified < v.lastModified) := by
  decide

/-- C5 amended: when the supplied prior version has a non-empty path and at
least one listed object passes the newness filter (strictly newer timestamp
and not a path+fingerprint duplicate), every element returned by check
differs from the prior version in path or fingerprint and has a timestamp
strictly after the prior version's. -/
theorem check_new_results_strictly_newer (objects : List ObjectInfo)
    (cur : Version) (h : cur.path ≠ "")
    (hx : ∃ o ∈ objects, passesFilter cur (toVersion o)) :
    ∀ v ∈ checkVersions objects cur,
      ¬ (v.path = cur.path ∧ v.etag = cur.etag) ∧
        cur.lastModified < v.lastModified := by
  obtain ⟨o, ho, hp⟩ := hx
  have hk : keepNew cur (toVersion o) = true := (keepNew_true_iff h _).mpr hp
  have hmem : toVersion o ∈ (objects.map toVersion).filter (keepNew cur) :=
    List.mem_filter.mpr ⟨List.mem_map.mpr ⟨o, ho, rfl⟩, hk⟩
  have hlen : ¬ (List.insertionSort versionLe
      ((objects.map toVersion).filter (keepNew cur))).length = 0 := by
    rw [List.length_insertionSort]
    intro h0
    rw [List.length_eq_zero] at h0
    rw [h0] at hmem
    exact absurd hmem (List.not_mem_nil _)
  have hres : checkVersions objects cur
      = List.insertionSort versionLe
          ((objects.map toVersion).filter (keepNew cur)) := by
    simp only [checkVersions]
    rw [if_neg (fun hcond => hlen hcond.1)]
  intro v hv
  rw [hres] at hv
  have hv2 : v ∈ (objects.map toVersion).filter (keepNew cur) :=
    (List.mem_insertionSort versionLe).mp hv
  exact (keepNew_true_iff h v).mp (List.mem_filter.mp hv2).2

/-- Witness for the amended C5: the concrete catch-up scenario of the spec,
instantiated at the single returned element. -/
theorem check_new_results_strictly_newer_witness :
    ¬ ((Version.mk "data/z.txt" "e3" 9).path
          = (Version.mk "data/x.txt" "e1" 5).path ∧
        (Version.mk "data/z.txt" "e3" 9).etag
          = (Version.mk "data/x.txt" "e1" 5).etag) ∧
      (Version.mk "data/x.txt" "e1" 5).lastModified
        < (Version.mk "data/z.txt" "e3" 9).lastModified :=
  check_new_results_strictly_newer [ObjectInfo.mk "data/z.txt" "e3" 9 1]
    (Version.mk "data/x.txt" "e1" 5) (by decide) (by decide)
    (Version.mk "data/z.txt" "e3" 9) (by decide)

/-- C9: check treats a prior version with an empty path as absent, even when
its etag or timestamp is set: the run is a cold start, applying no newness
filtering (the result is a permutation of the full converted listing, so the
fallback element is never added) and agreeing exactly with the run on the
all-zero prior version. -/
theorem check_empty_path_cold_start (objects : List ObjectInfo) (cur : Version)
    (h : cur.path = "") :
    (checkVersions objects cur).Perm (objects.map toVersion) ∧
      checkVersions objects cur
        = checkVersions objects (Version.mk "" "" 0) := by
  constructor
  · rw [check_cold_run objects h]
    exact List.perm_insertionSort versionLe _
  · rw [check_cold_run objects h, check_cold_run objects rfl]

/-- Witness for C9: a prior version with empty path but set etag and
timestamp behaves as a cold start. -/
theorem check_empty_path_cold_start_witness :
    (checkVersions [ObjectInfo.mk "a" "e" 3 1] (Version.mk "" "zz" 99)).Perm
        ([ObjectInfo.mk "a" "e" 3 1].map toVersion) ∧
      checkVersions [ObjectInfo.mk "a" "e" 3 1] (Version.mk "" "zz" 99)
        = checkVersions [ObjectInfo.mk "a" "e" 3 1] (Version.mk "" "" 0) :=
  check_empty_path_cold_start _ _ rfl

theorem writeResult_length (objects : List ObjectInfo)
    (outcome : ObjectInfo → Option String)
    (results : List (Option DownloadResult)) (idx : Nat) :
    (writeResult objects outcome results idx).length = results.length := by
  unfold writeResult
  cases objects[idx]? <;> simp

theorem foldl_writeResult_length (objects : List ObjectInfo)
    (outcome : ObjectInfo → Option String) (order : List Nat) :
    ∀ init : List (Option DownloadResult),
      (order.foldl (writeResult objects outcome) init).length = init.length := by
  induction order with
  | nil => intro init; rfl
  | cons j rest ih =>
    intro init
    rw [List.foldl_cons, ih, writeResult_length]

theorem foldl_writeResult_getElem (objects : List ObjectInfo)
    (outcome : ObjectInfo → Option String) (order : List Nat) :
    ∀ (init : List (Option DownloadResult)), init.length = objects.length →
      ∀ (i : Nat) (hi : i < objects.length),
        (order.foldl (writeResult objects outcome) init)[i]? =
          if i ∈ order
          then some (some (downloadOutcome outcome objects[i]))
          else init[i]? := by
  induction order with
  | nil =>
    intro init hlen i hi
    simp
  | cons j rest ih =>
    intro init hlen i hi
    rw [List.foldl_cons,
      ih (writeResult objects outcome init j)
        (by rw [writeResult_length, hlen]) i hi]
    by_cases hmem : i ∈ rest
    · simp [hmem]
    · simp only [hmem, if_false]
      by_cases hji : j = i
      · subst hji
        have hobj : objects[j]? = some objects[j] := List.getElem?_eq_getElem hi
        unfold writeResult
        rw [hobj]
        have hj : j < init.length := by rw [hlen]; exact hi
        simp [List.getElem?_set_self hj]
      · have hne : ¬ i ∈ j :: rest := by
          intro hh
          rcases List.mem_cons.mp hh with hh | hh
          · exact hji hh.symm
          · exact hmem hh
        unfold writeResult
        cases hobjj : objects[j]? with
        | none => simp [hne]
        | some o =>
          rw [List.getElem?_set_ne hji]
          simp [hne]

/-- C6: for every object listing, every parallelism value and every
completion order of the concurrent transfers (any permutation of the object
indices), the bulk download produces a result list with exactly one entry per
object, slot i holding the outcome of object i of the input listing. -/
theorem download_results_in_listing_order (objects : List ObjectInfo)
    (outcome : ObjectInfo → Option String) (parallel : Int) (order : List Nat)
    (hperm : order.Perm (List.range objects.length)) :
    (downloadAllOrdered objects outcome parallel order).length = objects.length ∧
      ∀ (i : Nat) (hi : i < objects.length),
        (downloadAllOrdered objects outcome parallel order)[i]? =
          some (some (downloadOutcome outcome objects[i])) := by
  constructor
  · simp only [downloadAllOrdered]
    rw [foldl_writeResult_length]
    exact List.length_replicate _ _
  · intro i hi
    simp only [downloadAllOrdered]
    rw [foldl_writeResult_getElem objects outcome order _
      (List.length_replicate _ _) i hi]
    have hmem : i ∈ order := hperm.mem_iff.mpr (List.mem_range.mpr hi)
    simp [hmem]

/-- Witness for C6: two objects, completion order reversed relative to the
listing, non-positive parallelism; the result list still follows the listing
order. -/
theorem download_results_in_listing_order_witness :
    (downloadAllOrdered
        [ObjectInfo.mk "a" "e1" 1 1, ObjectInfo.mk "b" "e2" 2 1]
        (fun o => if o.path = "b" then some "boom" else none) 0 [1, 0]).length
        = 2 ∧
      (downloadAllOrdered
          [ObjectInfo.mk "a" "e1" 1 1, ObjectInfo.mk "b" "e2" 2 1]
          (fun o => if o.path = "b" then some "boom" else none) 0 [1, 0])[0]? =
        some (some (downloadOutcome
          (fun o => if o.path = "b" then some "boom" else none)
          (ObjectInfo.mk "a" "e1" 1 1))) ∧
      (downloadAllOrdered
          [ObjectInfo.mk "a" "e1" 1 1, ObjectInfo.mk "b" "e2" 2 1]
          (fun o => if o.path = "b" then some "boom" else none) 0 [1, 0])[1]? =
        some (some (downloadOutcome
          (fun o => if o.path = "b" then some "boom" else none)
          (ObjectInfo.mk "b" "e2" 2 1))) := by
  have h := download_results_in_listing_order
    [ObjectInfo.mk "a" "e1" 1 1, ObjectInfo.mk "b" "e2" 2 1]
    (fun o => if o.path = "b" then some "boom" else none) 0 [1, 0] (by decide)
  exact ⟨h.1, h.2 0 (by decide), h.2 1 (by decide)⟩

theorem successCount_add_failCount (results : List DownloadResult) :
    successCount results + failCount results = results.length := by
  unfold successCount failCount
  induction results with
  | nil => rfl
  | cons r rs ih =>
    cases hr : r.error with
    | none =>
      simp [List.filter_cons, hr]
      omega
    | some e =>
      simp [List.filter_cons, hr]
      omega

theorem downloadAllStdout_noErr (objects : List ObjectInfo) :
    downloadAllStdout objects none
      = Except.ok (objects.map (fun o => o.path)) := by
  cases objects <;> rfl

theorem inRun_ok_shape (objects : List ObjectInfo)
    (outcome : ObjectInfo → Option String) (version : Version) (pfx : String) :
    inRun (Except.ok objects) outcome version pfx =
      match inFinish (objects.map (downloadOutcome outcome)) version pfx with
      | Except.error m =>
        { result := Except.error m,
          stdout := (objects.map (fun o => o.path)).map StdoutItem.line }
      | Except.ok (v, md) =>
        { result := Except.ok (v, md),
          stdout := (objects.map (fun o => o.path)).map StdoutItem.line
            ++ [StdoutItem.json v md] } := by
  simp only [inRun, listObjectsPair, downloadAllStdout_noErr]

/-- C7: over a bulk download of at least one object, if every transfer fails
the in operation exits fatally with no JSON on standard output, and if at
least one transfer succeeds it reports success with files_downloaded and
files_failed metadata entries whose counts sum to the number of objects. -/
theorem in_total_failure_or_partial_success (objects : List ObjectInfo)
    (outcome : ObjectInfo → Option String) (version : Version) (pfx : String)
    (hne : objects ≠ []) :
    ((∀ o ∈ objects, (outcome o).isSome = true) →
        (inRun (Except.ok objects) outcome version pfx).result
            = Except.error "all downloads failed" ∧
          ∀ item ∈ (inRun (Except.ok objects) outcome version pfx).stdout,
            ∀ v md, item ≠ StdoutItem.json v md) ∧
      ((∃ o ∈ objects, outcome o = none) →
        Metadata.mk "files_downloaded"
            (toString (successCount (objects.map (downloadOutcome outcome))))
          ∈ inMetadata (successCount (objects.map (downloadOutcome outcome)))
              (failCount (objects.map (downloadOutcome outcome))) pfx version ∧
        Metadata.mk "files_failed"
            (toString (failCount (objects.map (downloadOutcome outcome))))
          ∈ inMetadata (successCount (objects.map (downloadOutcome outcome)))
              (failCount (objects.map (downloadOutcome outcome))) pfx version ∧
        successCount (objects.map (downloadOutcome outcome))
            + failCount (objects.map (downloadOutcome outcome))
          = objects.length ∧
        (inRun (Except.ok objects) outcome version pfx).result
          = Except.ok (version,
              inMetadata (successCount (objects.map (downloadOutcome outcome)))
                (failCount (objects.map (downloadOutcome outcome))) pfx version)) := by
  constructor
  · intro hall
    have hsucc : successCount (objects.map (downloadOutcome outcome)) = 0 := by
      unfold successCount
      rw [List.filter_eq_nil_iff.mpr ?_, List.length_nil]
      intro r hr
      obtain ⟨o, ho, rfl⟩ := List.mem_map.mp hr
      have h1 := hall o ho
      simp only [downloadOutcome]
      cases houtcome : outcome o with
      | none => rw [houtcome] at h1; exact absurd h1 (by simp)
      | some e => simp
    have hfailpos : 0 < failCount (objects.map (downloadOutcome outcome)) := by
      have hsum := successCount_add_failCount (objects.map (downloadOutcome outcome))
      rw [hsucc, Nat.zero_add, List.length_map] at hsum
      rw [hsum]
      exact List.length_pos.mpr hne
    have hfin : inFinish (objects.map (downloadOutcome outcome)) version pfx
        = Except.error "all downloads failed" := by
      simp only [inFinish]
      rw [if_pos ⟨hfailpos, hsucc⟩]
    rw [inRun_ok_shape, hfin]
    refine ⟨rfl, ?_⟩
    intro item hitem v md
    obtain ⟨s, hs, rfl⟩ := List.mem_map.mp hitem
    simp
  · intro hex
    obtain ⟨o, ho, hoe⟩ := hex
    have hmem : downloadOutcome outcome o
        ∈ (objects.map (downloadOutcome outcome)).filter
            (fun r => r.error.isNone) := by
      rw [List.mem_filter]
      exact ⟨List.mem_map.mpr ⟨o, ho, rfl⟩, by simp [downloadOutcome, hoe]⟩
    have hsuccpos : 0 < successCount (objects.map (downloadOutcome outcome)) := by
      unfold successCount
      refine List.length_pos.mpr ?_
      intro hnil
      rw [hnil] at hmem
      exact absurd hmem (List.not_mem_nil _)
    have hfin : inFinish (objects.map (downloadOutcome outcome)) version pfx
        = Except.ok (version,
            inMetadata (successCount (objects.map (downloadOutcome outcome)))
              (failCount (objects.map (downloadOutcome outcome))) pfx version) := by
      have hnc : ¬ (0 < failCount (objects.map (downloadOutcome outcome)) ∧
          successCount (objects.map (downloadOutcome outcome)) = 0) := by
        intro hcond
        rw [hcond.2] at hsuccpos
        exact Nat.lt_irrefl 0 hsuccpos
      simp only [inFinish]
      rw [if_neg hnc]
    refine ⟨by simp [inMetadata], by simp [inMetadata], ?_, ?_⟩
    · rw [successCount_add_failCount, List.length_map]
    · rw [inRun_ok_shape, hfin]

/-- Witness for C7: the spec's concrete scenario shape, two objects with one
failing transfer; the operation succeeds and the counts sum to the object
count. -/
theorem in_total_failure_or_partial_success_witness :
    successCount
        ([ObjectInfo.mk "a" "e1" 1 1, ObjectInfo.mk "b" "e2" 2 1].map
          (downloadOutcome (fun o => if o.path = "b" then some "boom" else none)))
        + failCount
        ([ObjectInfo.mk "a" "e1" 1 1, ObjectInfo.mk "b" "e2" 2 1].map
          (downloadOutcome (fun o => if o.path = "b" then some "boom" else none)))
      = [ObjectInfo.mk "a" "e1" 1 1, ObjectInfo.mk "b" "e2" 2 1].length ∧
    (inRun (Except.ok [ObjectInfo.mk "a" "e1" 1 1, ObjectInfo.mk "b" "e2" 2 1])
        (fun o => if o.path = "b" then some "boom" else none)
        (Version.mk "" "" 0) "p/").result
      = Except.ok (Version.mk "" "" 0,
          inMetadata
            (successCount
              ([ObjectInfo.mk "a" "e1" 1 1, ObjectInfo.mk "b" "e2" 2 1].map
                (downloadOutcome (fun o => if o.path = "b" then some "boom" else none))))
            (failCount
              ([ObjectInfo.mk "a" "e1" 1 1, ObjectInfo.mk "b" "e2" 2 1].map
                (downloadOutcome (fun o => if o.path = "b" then some "boom" else none))))
            "p/" (Version.mk "" "" 0)) := by
  have h := (in_total_failure_or_partial_success
    [ObjectInfo.mk "a" "e1" 1 1, ObjectInfo.mk "b" "e2" 2 1]
    (fun o => if o.path = "b" then some "boom" else none)
    (Version.mk "" "" 0) "p/" (by decide)).2 (by decide)
  exact ⟨h.2.2.1, h.2.2.2⟩

/-- C1 is violated by the code: a successful in invocation writes the listed
object names to standard output (the fmt.Println in DownloadAllObjects,
pkg/minio line 241) before the JSON response, so standard output is not
exactly one JSON document.  Evaluation at a one-object listing whose download
succeeds: stdout carries a plain text line and then the JSON document. -/
theorem in_stdout_extra_lines :
    ((inRun (Except.ok [ObjectInfo.mk "data/x.txt" "e1" 1 5])
        (fun _ => none) (Version.mk "data/x.txt" "e1" 1) "data/").result
      = Except.ok (Version.mk "data/x.txt" "e1" 1,
          inMetadata 1 0 "data/" (Version.mk "data/x.txt" "e1" 1))) ∧
    (inRun (Except.ok [ObjectInfo.mk "data/x.txt" "e1" 1 5])
        (fun _ => none) (Version.mk "data/x.txt" "e1" 1) "data/").stdout
      = [StdoutItem.line "data/x.txt",
         StdoutItem.json (Version.mk "data/x.txt" "e1" 1)
           (inMetadata 1 0 "data/" (Version.mk "data/x.txt" "e1" 1))] := by
  constructor <;> rfl

/-- C2 is violated by the code: the listing-error check sits inside the loop
over the returned object slice (pkg/minio lines 237-242), and ListObjects
returns a nil slice on failure, so the loop body never runs, the error is
swallowed, and the in operation reports success with zero downloads, emitting
a JSON document with files_downloaded=0 and files_failed=0 instead of
aborting. -/
theorem in_listing_error_reports_success :
    ((inRun (Except.error "connection refused")
        (fun _ => none) (Version.mk "" "" 0) "data/").result
      = Except.ok (Version.mk "" "" 0,
          [Metadata.mk "files_downloaded" "0",
           Metadata.mk "files_failed" "0",
           Metadata.mk "path_prefix" "data/"])) ∧
    (inRun (Except.error "connection refused")
        (fun _ => none) (Version.mk "" "" 0) "data/").stdout
      = [StdoutItem.json (Version.mk "" "" 0)
          [Metadata.mk "files_downloaded" "0",
           Metadata.mk "files_failed" "0",
           Metadata.mk "path_prefix" "data/"]] := by
  constructor <;> rfl

theorem goTrimPrefix_append (a b : String) : goTrimPrefix (a ++ b) a = b := by
  unfold goTrimPrefix
  have hpre : a.data.isPrefixOf (a ++ b).data = true := by
    rw [String.data_append]
    exact List.isPrefixOf_iff_prefix.mpr (List.prefix_append _ _)
  rw [if_pos hpre, String.data_append, List.drop_left]

theorem goTrimPrefix_self (a : String) : goTrimPrefix a a = "" := by
  unfold goTrimPrefix
  have hpre : a.data.isPrefixOf a.data = true :=
    List.isPrefixOf_iff_prefix.mpr (List.prefix_refl _)
  rw [if_pos hpre, List.drop_length]

/-- C8: the destination file of a downloaded object is its key with the
client's (normalized) prefix stripped, joined onto the destination root; an
object whose key is exactly the prefix (so stripping leaves nothing) lands at
the join of the destination root with the key's base name. -/
theorem destination_path_mapping (pfx rest destDir : String) (hr : rest ≠ "") :
    destinationPath (normalizePathPrefix pfx) destDir
        (normalizePathPrefix pfx ++ rest)
      = goFilepathJoin destDir rest ∧
    destinationPath (normalizePathPrefix pfx) destDir (normalizePathPrefix pfx)
      = goFilepathJoin destDir (goFilepathBase (normalizePathPrefix pfx)) := by
  constructor
  · simp only [destinationPath]
    rw [goTrimPrefix_append, if_neg hr]
  · simp only [destinationPath]
    rw [goTrimPrefix_self, if_pos rfl]

/-- Witness for C8: key prefix/a/b.txt under configured prefix "prefix"
(normalized to "prefix/") lands at the join of the destination with
"a/b.txt"; a key equal to the normalized prefix lands at the join with its
base name. -/
theorem destination_path_mapping_witness :
    destinationPath (normalizePathPrefix "prefix") "dest"
        (normalizePathPrefix "prefix" ++ "a/b.txt")
      = goFilepathJoin "dest" "a/b.txt" ∧
    destinationPath (normalizePathPrefix "prefix") "dest"
        (normalizePathPrefix "prefix")
      = goFilepathJoin "dest" (goFilepathBase (normalizePathPrefix "prefix")) :=
  destination_path_mapping "prefix" "a/b.txt" "dest" (by decide)

/-- C10: with uploads disabled, out still validates the source configuration
and fails fatally when a required field is empty; when validation passes it
performs no store operation at all (the store-operation trace is empty and
the upload-enabled branch is never consulted) and always succeeds with the
synthetic version (path "no-upload", etag "disabled") and the single
upload_status=disabled metadata entry. -/
theorem out_disabled_validates_and_skips_store (src : Source)
    (params : Option (List (String × ParamValue))) (now : Nat)
    (enabledBranch : Except String (Version × List Metadata) × List StoreOp)
    (hdis : uploadDisabled params = true) :
    ((src.endpoint = "" ∨ src.accessKey = "" ∨ src.secretKey = ""
        ∨ src.bucket = "") →
      ∃ msg, outRun src params now enabledBranch = (Except.error msg, [])) ∧
    (src.endpoint ≠ "" → src.accessKey ≠ "" → src.secretKey ≠ "" →
      src.bucket ≠ "" →
      outRun src params now enabledBranch
        = (Except.ok (Version.mk "no-upload" "disabled" now,
            [Metadata.mk "upload_status" "disabled"]), [])) := by
  constructor
  · intro hempty
    by_cases h1 : src.endpoint = ""
    · exact ⟨"invalid source configuration: endpoint is required",
        by simp [outRun, validateSource, h1]⟩
    · by_cases h2 : src.accessKey = ""
      · exact ⟨"invalid source configuration: access_key is required",
          by simp [outRun, validateSource, h1, h2]⟩
      · by_cases h3 : src.secretKey = ""
        · exact ⟨"invalid source configuration: secret_key is required",
            by simp [outRun, validateSource, h1, h2, h3]⟩
        · by_cases h4 : src.bucket = ""
          · exact ⟨"invalid source configuration: bucket is required",
              by simp [outRun, validateSource, h1, h2, h3, h4]⟩
          · rcases hempty with h | h | h | h <;> contradiction
  · intro h1 h2 h3 h4
    simp [outRun, validateSource, h1, h2, h3, h4, hdis]

/-- Witness for C10: a fully populated source with upload_enabled set to
false; the disabled response is produced with an empty store-operation trace
even though the (never taken) enabled branch would have failed and performed
a store operation. -/
theorem out_disabled_validates_and_skips_store_witness :
    outRun (Source.mk "http://minio:9000" "ak" "sk" "bkt" "data/" none "" false)
        (some [("upload_enabled", ParamValue.bool false)]) 7
        (Except.error "never-taken", [StoreOp.newClient])
      = (Except.ok (Version.mk "no-upload" "disabled" 7,
          [Metadata.mk "upload_status" "disabled"]), []) :=
  (out_disabled_validates_and_skips_store
    (Source.mk "http://minio:9000" "ak" "sk" "bkt" "data/" none "" false)
    (some [("upload_enabled", ParamValue.bool false)]) 7
    (Except.error "never-taken", [StoreOp.newClient]) (by rfl)).2
    (by decide) (by decide) (by decide) (by decide)

end MinioResource
